import Mathlib

/-!
Shallow embedding of `src/sentry/api/endpoints/event_ai_suggested_fix.py` and
`src/sentry/search/eap/columns.py`, with theorems about the embedded code.

Python dictionaries with optional keys are modelled by structures with
`Option`-typed fields (`none` = key absent); Python truthiness of an optional
boolean is `Option.getD false`; Python list slices (which clamp and accept
negative indices) are modelled by `pySlice`; `int(x / 2)` on a possibly
negative integer truncates toward zero and is modelled by `Int.tdiv`.
-/

namespace Sentry

/-- Effective bound of a Python slice index `i` on a list of length `len`:
a negative index counts from the end (clamped at 0), a non-negative index is
clamped at `len`. -/
def pyIdx (len : Nat) (i : Int) : Nat :=
  if i < 0 then (i + len).toNat else min i.toNat len

/-- Python list slice `l[a:b]`. -/
def pySlice {α : Type} (l : List α) (a b : Int) : List α :=
  (l.take (pyIdx l.length b)).drop (pyIdx l.length a)

/-- Constant `MAX_STACKTRACE_FRAMES = 30`. -/
def MAX_STACKTRACE_FRAMES : Nat := 30

section TrimFrames

variable {α : Type}

/-- Indices (positions in `frames`) of the frames appended to `app_frames`
in the first loop of `trim_frames` (`frame.get("in_app")` truthy). -/
def tfAppIdx (inApp : α → Bool) (frames : List α) : List Nat :=
  (frames.enum.filter fun p => inApp p.2).map Prod.fst

/-- Indices of the frames appended to `system_frames` in the first loop of
`trim_frames`. -/
def tfSysIdx (inApp : α → Bool) (frames : List α) : List Nat :=
  (frames.enum.filter fun p => !inApp p.2).map Prod.fst

/-- Value `system_allowance = max(frame_allowance - app_count, 0)` (natural
subtraction truncates at 0 exactly like the `max`). -/
def tfSystemAllowance (inApp : α → Bool) (frames : List α)
    (frame_allowance : Nat) : Nat :=
  frame_allowance - (tfAppIdx inApp frames).length

/-- Indices of the system frames on which the first marking phase of
`trim_frames` sets `frame["delete"] = True`: the slice
`system_frames[half_max:-half_max]` when `system_allowance` is truthy,
otherwise all of `system_frames`. -/
def tfMarkedSys (inApp : α → Bool) (frames : List α)
    (frame_allowance : Nat) : List Nat :=
  let system_allowance := tfSystemAllowance inApp frames frame_allowance
  if system_allowance ≠ 0 then
    let half_max : Int := (system_allowance / 2 : Nat)
    pySlice (tfSysIdx inApp frames) half_max (-half_max)
  else
    tfSysIdx inApp frames

/-- Value of `remaining` after the first marking phase: it starts at
`frames_len - frame_allowance` and is decremented once per frame marked
there. -/
def tfRemaining (inApp : α → Bool) (frames : List α)
    (frame_allowance : Nat) : Int :=
  (frames.length : Int) - frame_allowance
    - (tfMarkedSys inApp frames frame_allowance).length

/-- Indices of the app frames marked in the second phase
(`app_frames[half_max:-half_max]` with
`half_max = int(app_allowance / 2)`, truncation toward zero), which runs
only when `remaining` is truthy, i.e. non-zero. -/
def tfMarkedApp (inApp : α → Bool) (frames : List α)
    (frame_allowance : Nat) : List Nat :=
  if tfRemaining inApp frames frame_allowance ≠ 0 then
    let app_allowance : Int :=
      ((tfAppIdx inApp frames).length : Int)
        - tfRemaining inApp frames frame_allowance
    let half_max : Int := Int.tdiv app_allowance 2
    pySlice (tfAppIdx inApp frames) half_max (-half_max)
  else
    []

/-- All indices whose frame has `delete` set by this call of `trim_frames`. -/
def tfMarked (inApp : α → Bool) (frames : List α)
    (frame_allowance : Nat) : List Nat :=
  tfMarkedSys inApp frames frame_allowance
    ++ tfMarkedApp inApp frames frame_allowance

/-- Function `trim_frames(frames, frame_allowance=MAX_STACKTRACE_FRAMES)`.

`inApp f` is the truthiness of `f.get("in_app")` and `del f` the truthiness
of `f.get("delete")` on entry.  If `frames_len <= frame_allowance` the input
list is returned unchanged; otherwise the function marks `delete` on the
frames selected by the two phases above and returns
`[x for x in frames if not x.get("delete")]`.  Marked frames are exactly the
ones removed by that comprehension, so the returned frames are the original,
unmutated objects. -/
def trim_frames (inApp del : α → Bool) (frames : List α)
    (frame_allowance : Nat := MAX_STACKTRACE_FRAMES) : List α :=
  if frames.length ≤ frame_allowance then frames
  else
    let marked := tfMarked inApp frames frame_allowance
    (frames.enum.filter fun p => !(marked.contains p.1) && !(del p.2)).map
      Prod.snd

end TrimFrames

/-- A raw stacktrace frame dictionary as `trim_frames` sees it when called
directly on event frames: only the `in_app` and `delete` keys are read, the
rest of the dictionary is opaque payload. -/
structure Frame where
  in_app : Option Bool := none
  delete : Option Bool := none
  payload : Nat := 0
deriving DecidableEq, Repr

/-- Truthiness of `frame.get("in_app")`. -/
def Frame.inAppTruthy (f : Frame) : Bool := f.in_app.getD false

/-- Truthiness of `frame.get("delete")`. -/
def Frame.deleteTruthy (f : Frame) : Bool := f.delete.getD false

/-- Tags removed by `describe_event_for_ai` (`BLOCKED_TAGS`). -/
def BLOCKED_TAGS : List String :=
  ["user", "server_name", "release", "handled", "client_os", "client_os.name",
   "browser", "browser.name", "environment", "runtime", "device",
   "device.family", "gpu", "gpu.name", "gpu.vendor", "url", "trace", "otel"]

/-- Python comparison `(k1, v1) <= (k2, v2)` on pairs of strings, as used by
`sorted(event["tags"])`: lexicographic on the code-point sequences (a
string's `data` are its characters). -/
def tagLE (a b : String × String) : Prop :=
  a.1.data < b.1.data ∨ (a.1 = b.1 ∧ a.2.data ≤ b.2.data)

instance : DecidableRel tagLE := fun a b =>
  inferInstanceAs
    (Decidable (a.1.data < b.1.data ∨ (a.1 = b.1 ∧ a.2.data ≤ b.2.data)))

/-- Assignment `d[k] = v` on an insertion-ordered dictionary represented as an
association list: an existing key keeps its position and gets the new value,
a new key is appended at the end. -/
def upsert {β : Type} : List (String × β) → String → β → List (String × β)
  | [], k, v => [(k, v)]
  | (k', v') :: rest, k, v =>
    if k' = k then (k', v) :: rest else (k', v') :: upsert rest k v

/-- Tags dictionary of the AI description: iterate `sorted(event["tags"])`,
skip keys in `BLOCKED_TAGS`, assign the rest.  Python's `sorted` returns the
unique `tagLE`-sorted permutation of the input (the order is total and
antisymmetric, so stability adds nothing), modelled here by
`List.insertionSort`. -/
def describeTags (tags : List (String × String)) : List (String × String) :=
  (List.insertionSort tagLE tags).foldl
    (fun d p => if p.1 ∈ BLOCKED_TAGS then d else upsert d p.1 p.2) []

/-- Raw frame dictionary inside `exc["stacktrace"]["frames"]`; a `none` field
means the key is absent (`frame["in_app"]` then raises `KeyError`, the
`frame.get(...)` lookups return `None`). -/
structure RawFrame where
  function : Option String := none
  module : Option String := none
  filename : Option String := none
  lineno : Option Int := none
  in_app : Option Bool := none
  context_line : Option String := none
deriving DecidableEq, Repr

/-- Dictionary `exc.get("mechanism") or {}`; `meta` is modelled as an opaque
string payload whose Python truthiness is being non-empty. -/
structure Mechanism where
  meta : Option String := none
  handled : Option Bool := none
deriving DecidableEq, Repr

/-- One entry of `event["exception"]["values"]`.  `stacktrace_frames` models
`exc.get("stacktrace", {}).get("frames")` (`none` when either key is absent
or the value is `None`). -/
structure ExcValue where
  type : Option String := none
  value : Option String := none
  mechanism : Option Mechanism := none
  stacktrace_frames : Option (List RawFrame) := none
deriving DecidableEq, Repr

/-- Event data dictionary as read by `describe_event_for_ai`:
`event["tags"]`, `event.get("exception", {}).get("values", ())` (absence is
observationally the empty list) and `event.get("message")`. -/
structure EventData where
  tags : List (String × String) := []
  exception_values : List ExcValue := []
  message : Option String := none
deriving DecidableEq, Repr

/-- Stack-frame dictionary built in the frame loop of
`describe_event_for_ai`; a `none` field means the key was not set. -/
structure StackFrame where
  func : Option String := none
  module : Option String := none
  file : Option String := none
  line : Option Int := none
  in_app : Option Bool := none
  crashed_here : Option Bool := none
  code : Option String := none
  delete : Option Bool := none
deriving DecidableEq, Repr

/-- Truthiness of `stack_frame.get("in_app")`. -/
def StackFrame.inAppTruthy (f : StackFrame) : Bool := f.in_app.getD false

/-- Truthiness of `stack_frame.get("delete")`. -/
def StackFrame.deleteTruthy (f : StackFrame) : Bool := f.delete.getD false

/-- Python `str.strip()`: remove leading and trailing whitespace. -/
def pyStrip (s : String) : String :=
  String.mk
    (((s.toList.dropWhile Char.isWhitespace).reverse.dropWhile
      Char.isWhitespace).reverse)

/-- Body of the `for frame in reversed(frames)` loop for a single frame,
threading the `first_in_app` flag.  Returns `none` when the unguarded lookup
`frame["in_app"]` raises `KeyError` (the key is absent); the guarded
`frame.get("in_app")` just before it is falsy in that case. -/
def buildStackFrame (frame : RawFrame) (first_in_app : Bool) :
    Option (StackFrame × Bool) :=
  let sf : StackFrame :=
    { func := frame.function, module := frame.module,
      file := frame.filename, line := frame.lineno,
      in_app := if frame.in_app.getD false then some true else none }
  match frame.in_app with
  | none => none
  | some inApp =>
    if inApp then
      let sf := if first_in_app then { sf with crashed_here := some true } else sf
      let first_in_app := if first_in_app then false else first_in_app
      let line := pyStrip (frame.context_line.getD "")
      let sf := if line ≠ "" then { sf with code := some line } else sf
      some (sf, first_in_app)
    else
      some (sf, first_in_app)

/-- Loop `for frame in reversed(frames)` (the argument is already reversed),
appending each built stack frame and threading `first_in_app`. -/
def buildStacktrace : List RawFrame → Bool → Option (List StackFrame)
  | [], _ => some []
  | frame :: rest, first_in_app =>
    match buildStackFrame frame first_in_app with
    | none => none
    | some (sf, first_in_app') =>
      match buildStacktrace rest first_in_app' with
      | none => none
      | some sfs => some (sf :: sfs)

/-- One exception dictionary of the AI description (the keys set in the body
of the exception loop; a `none` field means the key was not set). -/
structure ExceptionOut where
  raised_during_handling_of_previous_exception : Option Bool := none
  number : Nat := 0
  type : String := ""
  message : Option String := none
  meta : Option String := none
  unhandled : Option Bool := none
  stacktrace : Option (List StackFrame) := none
deriving DecidableEq, Repr

/-- Keys of the exception dictionary set before the `frames` block of the
exception loop: `raised_during_handling_of_previous_exception` for positive
indices, `number`, `type`, `message`, and `meta`/`unhandled` from
`exc.get("mechanism") or {}`. -/
def buildExceptionBase (idx : Nat) (exc : ExcValue) (ty : String) :
    ExceptionOut :=
  let e : ExceptionOut :=
    { raised_during_handling_of_previous_exception :=
        if 0 < idx then some true else none,
      number := idx + 1, type := ty, message := exc.value }
  let mechanism := exc.mechanism.getD {}
  let e :=
    match mechanism.meta with
    | some m => if m ≠ "" then { e with meta := some m } else e
    | none => e
  if mechanism.handled = some false then { e with unhandled := some true }
  else e

/-- Body of the exception loop for index `idx`.  Returns `none` when the
unguarded lookup `exc["type"]` raises `KeyError`, or when a frame raises in
`buildStackFrame`.  `first_in_app` starts at `False`. -/
def buildException (idx : Nat) (exc : ExcValue) : Option ExceptionOut :=
  match exc.type with
  | none => none
  | some ty =>
    let e := buildExceptionBase idx exc ty
    match exc.stacktrace_frames with
    | none => some e
    | some frames =>
      if frames.isEmpty then some e
      else
        match buildStacktrace frames.reverse false with
        | none => none
        | some stacktrace =>
          if stacktrace.isEmpty then some e
          else
            let trimmed :=
              trim_frames StackFrame.inAppTruthy StackFrame.deleteTruthy
                stacktrace
            some { e with stacktrace := some trimmed }

/-- Loop `for idx, exc in enumerate(reversed(values[:MAX_STACKTRACE_FRAMES]))`
(the argument is already truncated and reversed). -/
def buildExceptions : Nat → List ExcValue → Option (List ExceptionOut)
  | _, [] => some []
  | idx, exc :: rest =>
    match buildException idx exc with
    | none => none
    | some e =>
      match buildExceptions (idx + 1) rest with
      | none => none
      | some es => some (e :: es)

/-- Data dictionary produced by `describe_event_for_ai`. -/
structure AIDescription where
  tags : List (String × String) := []
  exceptions : List ExceptionOut := []
  message : Option String := none
deriving DecidableEq, Repr

/-- Function `describe_event_for_ai(event)`; `none` models an escaping
`KeyError`. -/
def describe_event_for_ai (event : EventData) : Option AIDescription :=
  let tags := describeTags event.tags
  match
    buildExceptions 0 ((event.exception_values.take MAX_STACKTRACE_FRAMES).reverse)
  with
  | none => none
  | some exceptions =>
    some { tags := tags, exceptions := exceptions,
           message := if event.message.getD "" ≠ "" then event.message else none }

/-- Function `get_openai_policy(organization)`: fold the signal results,
starting from `"allowed"`; the last non-`None` result wins. -/
def get_openai_policy (results : List (Option String)) : String :=
  results.foldl
    (fun result new_result =>
      match new_result with
      | some v => v
      | none => result)
    "allowed"

/-- Modelled from the spec: `RateLimit` of `sentry.types.ratelimit` is not
under `src/`; per the spec's rate-limit description its positional arguments
are the request limit and the window in seconds, so `RateLimit(5, 1)` allows
5 requests per 1-second window. -/
structure RateLimit where
  limit : Nat
  window : Nat
deriving DecidableEq, Repr

/-- Categories used by the endpoint's `rate_limits` declaration. -/
inductive RateLimitCategory
  | IP
  | USER
  | ORGANIZATION
deriving DecidableEq, Repr

/-- Class attribute `enforce_rate_limit = True`. -/
def EventAiSuggestedFixEndpoint.enforce_rate_limit : Bool := true

/-- Class attribute `rate_limits`. -/
def EventAiSuggestedFixEndpoint.rate_limits :
    List (String × List (RateLimitCategory × RateLimit)) :=
  [("GET",
    [(RateLimitCategory.IP, ⟨5, 1⟩),
     (RateLimitCategory.USER, ⟨5, 1⟩),
     (RateLimitCategory.ORGANIZATION, ⟨5, 1⟩)])]

/-- One `cache.set(key, value, timeout)` call made by the handler. -/
structure CacheWrite where
  key : String
  value : String
  timeout : Nat
deriving DecidableEq, Repr

/-- Observable response of the GET handler: `ResourceDoesNotExist`, the 403
policy response with body `{"restriction": ...}`, an escaping `KeyError`
from `describe_event_for_ai`, or the 200 response with body
`{"suggestion": ...}`. -/
inductive GetResult
  | resourceDoesNotExist
  | restricted (restriction : String)
  | keyError
  | suggestionResponse (suggestion : String)
deriving DecidableEq, Repr

/-- Event object returned by `eventstore.get_event_by_id`: its `data`
dictionary and the value of `event.get_primary_hash()`. -/
structure HandlerEvent where
  data : EventData
  primary_hash : String
deriving DecidableEq, Repr

/-- Inputs of one GET request: the narrow interfaces of the external
collaborators (settings, feature flags, event store, policy signal, query
string, cache state, chat-completion reply). -/
structure RequestCtx where
  openai_api_key : Option String := none
  feature_enabled : Bool := false
  event : Option HandlerEvent := none
  policy_results : List (Option String) := []
  consent : Option String := none
  cache : List (String × String) := []
  openai_content : String := ""
deriving DecidableEq, Repr

/-- Effects of one GET request: the response, the `cache.set` calls made and
the number of `openai.ChatCompletion.create` calls made. -/
structure GetOutcome where
  result : GetResult
  cacheWrites : List CacheWrite := []
  apiCalls : Nat := 0
deriving DecidableEq, Repr

/-- Value of `policy_failure` after the policy `if`/`elif` chain of the GET
handler: the `"allowed"` arm and the unknown-policy arm (which only logs a
warning) both leave it `None`. -/
def policyFailure (policy : String) (consent : Option String) : Option String :=
  if policy = "subprocessor" then some "subprocessor"
  else if policy = "individual_consent" then
    if consent ≠ some "yes" then some "individual_consent" else none
  else none

/-- Tail of the GET handler after the policy check passed: cache-aside on
`"ai:" + event.get_primary_hash()`, with the chat-completion call and
`cache.set(cache_key, suggestion, 300)` on a miss.  The API call happens
after `describe_event_for_ai(event.data)`, so an escaping `KeyError` there
prevents both the call and the write. -/
def getSuggestion (ctx : RequestCtx) (event : HandlerEvent) : GetOutcome :=
  match ctx.cache.lookup ("ai:" ++ event.primary_hash) with
  | some suggestion => { result := .suggestionResponse suggestion }
  | none =>
    match describe_event_for_ai event.data with
    | none => { result := .keyError }
    | some _ =>
      { result := .suggestionResponse ctx.openai_content,
        cacheWrites := [⟨"ai:" ++ event.primary_hash, ctx.openai_content, 300⟩],
        apiCalls := 1 }

/-- Method `EventAiSuggestedFixEndpoint.get(request, project, event_id)`. -/
def EventAiSuggestedFixEndpoint.get (ctx : RequestCtx) : GetOutcome :=
  if ctx.openai_api_key.getD "" = "" ∨ ¬ ctx.feature_enabled then
    { result := .resourceDoesNotExist }
  else
    match ctx.event with
    | none => { result := .resourceDoesNotExist }
    | some event =>
      match policyFailure (get_openai_policy ctx.policy_results) ctx.consent with
      | some failure => { result := .restricted failure }
      | none => getSuggestion ctx event

/-- Internal rpc type of a column (`AttributeKey.Type`); only
`constants.INT` occurs in `SPAN_COLUMN_DEFINITIONS`. -/
inductive AttributeKeyType
  | TYPE_INT
deriving DecidableEq, Repr

/-- Validators referenced by the column list; `is_event_id` and `is_span_id`
come from `sentry.utils.validators`, which is not under `src/`, and only
their identity matters for the column table. -/
inductive ColumnValidator
  | is_event_id
  | is_span_id
deriving DecidableEq, Repr

/-- Dataclass `ResolvedColumn` (`processor` is `None` on every entry of the
column list, so it is modelled as an opaque absent field). -/
structure ResolvedColumn where
  public_alias : String
  internal_name : String
  search_type : String
  internal_type : Option AttributeKeyType := none
  processor : Option Unit := none
  validator : Option ColumnValidator := none
deriving DecidableEq, Repr

/-- List literal inside the `SPAN_COLUMN_DEFINITIONS` comprehension, in
source order. -/
def SPAN_COLUMN_LIST : List ResolvedColumn :=
  [{ public_alias := "id", internal_name := "span_id", search_type := "string",
     validator := some .is_span_id },
   { public_alias := "organization.id", internal_name := "organization_id",
     search_type := "string" },
   { public_alias := "span.action", internal_name := "action",
     search_type := "string" },
   { public_alias := "span.description", internal_name := "name",
     search_type := "string" },
   { public_alias := "description", internal_name := "name",
     search_type := "string" },
   { public_alias := "message", internal_name := "name",
     search_type := "string" },
   { public_alias := "span.domain", internal_name := "attr_str[domain]",
     search_type := "string" },
   { public_alias := "span.group", internal_name := "attr_str[group]",
     search_type := "string" },
   { public_alias := "span.op", internal_name := "attr_str[op]",
     search_type := "string" },
   { public_alias := "span.category", internal_name := "attr_str[category]",
     search_type := "string" },
   { public_alias := "span.self_time", internal_name := "exclusive_time_ms",
     search_type := "duration" },
   { public_alias := "span.status", internal_name := "attr_str[status]",
     search_type := "string" },
   { public_alias := "trace", internal_name := "trace_id",
     search_type := "string", validator := some .is_event_id },
   { public_alias := "messaging.destination.name",
     internal_name := "attr_str[messaging.destination.name]",
     search_type := "string" },
   { public_alias := "messaging.message.id",
     internal_name := "attr_str[messaging.message.id]",
     search_type := "string" },
   { public_alias := "span.status_code",
     internal_name := "attr_str[status_code]", search_type := "string" },
   { public_alias := "replay.id", internal_name := "attr_str[replay_id]",
     search_type := "string" },
   { public_alias := "span.ai.pipeline.group",
     internal_name := "attr_str[ai_pipeline_group]",
     search_type := "string" },
   { public_alias := "trace.status", internal_name := "attr_str[trace.status]",
     search_type := "string" },
   { public_alias := "browser.name", internal_name := "attr_str[browser.name]",
     search_type := "string" },
   { public_alias := "ai.total_cost", internal_name := "attr_num[ai.total_cost]",
     search_type := "number" },
   { public_alias := "ai.total_tokens.used",
     internal_name := "attr_num[ai_total_tokens_used]",
     search_type := "number" },
   { public_alias := "project", internal_name := "project_id",
     internal_type := some .TYPE_INT, search_type := "string" },
   { public_alias := "project.slug", internal_name := "project_id",
     search_type := "string", internal_type := some .TYPE_INT }]

/-- Dictionary `SPAN_COLUMN_DEFINITIONS = {column.public_alias: column for
column in [...]}`: an insertion-ordered map where a later duplicate key wins. -/
def SPAN_COLUMN_DEFINITIONS : List (String × ResolvedColumn) :=
  SPAN_COLUMN_LIST.foldl (fun d column => upsert d column.public_alias column) []

/-- Concrete request whose cache already holds a suggestion for the event's
primary hash. -/
def ctxCacheHit : RequestCtx :=
  { openai_api_key := some "k", feature_enabled := true,
    event := some { data := {}, primary_hash := "h" },
    cache := [("ai:h", "cached")] }

/-- Concrete request that misses the cache on an event whose description is
computable. -/
def ctxCacheMiss : RequestCtx :=
  { openai_api_key := some "k", feature_enabled := true,
    event := some { data := {}, primary_hash := "h" },
    openai_content := "sug" }

/-- Concrete request that misses the cache on an event whose single exception
value lacks the `type` key, so `describe_event_for_ai` raises `KeyError`. -/
def ctxKeyErrorMiss : RequestCtx :=
  { openai_api_key := some "k", feature_enabled := true,
    event := some { data := { exception_values := [{}] }, primary_hash := "h" },
    openai_content := "sug" }

/-- Concrete request under the `individual_consent` policy without
`consent=yes`. -/
def ctxConsentNo : RequestCtx :=
  { openai_api_key := some "k", feature_enabled := true,
    event := some { data := {}, primary_hash := "h" },
    policy_results := [some "individual_consent"], consent := some "no" }

/-- Concrete event with one exception and one in-app stack frame. -/
def evOneFrame : EventData :=
  { exception_values :=
      [{ type := some "E",
         stacktrace_frames := some [{ in_app := some true }] }] }

/-- Description `describe_event_for_ai` produces for `evOneFrame`. -/
def descOneFrame : AIDescription :=
  { exceptions :=
      [{ number := 1, type := "E",
         stacktrace := some [{ in_app := some true }] }] }

/-- Concrete event with one blocked and two unblocked tags. -/
def evTagsA : EventData :=
  { tags := [("user", "u1"), ("zeta", "z"), ("alpha", "a")] }

/-- Same event as `evTagsA` except for the value of the blocked `user` tag. -/
def evTagsB : EventData :=
  { tags := [("user", "u2"), ("zeta", "z"), ("alpha", "a")] }

end Sentry

namespace Sentry

/-! ### Helper lemmas -/

/-- A successful `List.lookup` result is a member of the association list. -/
theorem lookup_eq_some_mem {β : Type} {l : List (String × β)} {k : String}
    {v : β} (h : l.lookup k = some v) : (k, v) ∈ l := by
  induction l with
  | nil => simp [List.lookup] at h
  | cons p rest ih =>
    obtain ⟨k', v'⟩ := p
    rw [List.lookup] at h
    by_cases hk : k = k'
    · subst hk
      simp at h
      subst h
      exact List.mem_cons_self _ _
    · have : (k == k') = false := beq_false_of_ne hk
      rw [this] at h
      exact List.mem_cons_of_mem _ (ih h)

/-! ### Theorems about the claims -/

/-- C6: for every list of frames whose length is less than or equal to
`frame_allowance`, `trim_frames` returns the input list unchanged. -/
theorem trim_frames_id_of_length_le {α : Type} (inApp del : α → Bool)
    (frames : List α) (frame_allowance : Nat)
    (h : frames.length ≤ frame_allowance) :
    trim_frames inApp del frames frame_allowance = frames := by
  unfold trim_frames
  rw [if_pos h]

/-- Witness for C6 at a concrete one-frame list and the default allowance. -/
theorem trim_frames_id_of_length_le_witness :
    [({payload := 7} : Frame)].length ≤ MAX_STACKTRACE_FRAMES ∧
      trim_frames Frame.inAppTruthy Frame.deleteTruthy [{payload := 7}]
        MAX_STACKTRACE_FRAMES = [{payload := 7}] :=
  ⟨by decide, trim_frames_id_of_length_le _ _ _ _ (by decide)⟩

/-- C7: the endpoint declares `enforce_rate_limit = True`, and its GET rate
limits allow at most 5 requests per 1-second window in each of the IP, USER
and ORGANIZATION categories. -/
theorem endpoint_rate_limits_declared :
    EventAiSuggestedFixEndpoint.enforce_rate_limit = true ∧
      EventAiSuggestedFixEndpoint.rate_limits.lookup "GET" =
        some [(RateLimitCategory.IP, ⟨5, 1⟩), (RateLimitCategory.USER, ⟨5, 1⟩),
          (RateLimitCategory.ORGANIZATION, ⟨5, 1⟩)] := by
  decide

/-- C4: every successful lookup in `SPAN_COLUMN_DEFINITIONS` returns a column
whose `public_alias` is the looked-up key and whose `internal_name` is a
non-empty internal identifier; moreover every entry of the source list is
reachable under its own `public_alias` (all 24 aliases are distinct, so
later-duplicates-win is vacuous here). -/
theorem span_column_definitions_wf :
    (∀ k col, SPAN_COLUMN_DEFINITIONS.lookup k = some col →
        col.public_alias = k ∧ col.internal_name ≠ "") ∧
      ∀ col ∈ SPAN_COLUMN_LIST,
        SPAN_COLUMN_DEFINITIONS.lookup col.public_alias = some col := by
  constructor
  · intro k col h
    have hall : ∀ p ∈ SPAN_COLUMN_DEFINITIONS,
        p.2.public_alias = p.1 ∧ p.2.internal_name ≠ "" := by decide
    exact hall (k, col) (lookup_eq_some_mem h)
  · decide

/-- Witness for C4 at the key `"trace"`. -/
theorem span_column_definitions_wf_witness :
    SPAN_COLUMN_DEFINITIONS.lookup "trace" =
        some { public_alias := "trace", internal_name := "trace_id",
               search_type := "string", validator := some .is_event_id } ∧
      ({ public_alias := "trace", internal_name := "trace_id",
         search_type := "string",
         validator := some .is_event_id : ResolvedColumn }.public_alias
          = "trace" ∧
        ({ public_alias := "trace", internal_name := "trace_id",
           search_type := "string",
           validator := some .is_event_id : ResolvedColumn }.internal_name
            ≠ "")) :=
  ⟨by decide, span_column_definitions_wf.1 "trace" _ (by decide)⟩

/-- C5: every `cache.set` call the GET handler makes stores with the fixed
timeout of 300 seconds. -/
theorem cache_writes_have_fixed_ttl (ctx : RequestCtx) :
    ∀ w ∈ (EventAiSuggestedFixEndpoint.get ctx).cacheWrites, w.timeout = 300 := by
  intro w hw
  unfold EventAiSuggestedFixEndpoint.get getSuggestion at hw
  repeat' split at hw
  all_goals simp_all

/-- Witness for C5: the concrete cache-missing request actually performs a
write, and that write carries timeout 300. -/
theorem cache_writes_have_fixed_ttl_witness :
    (⟨"ai:h", "sug", 300⟩ : CacheWrite) ∈
        (EventAiSuggestedFixEndpoint.get ctxCacheMiss).cacheWrites ∧
      (⟨"ai:h", "sug", 300⟩ : CacheWrite).timeout = 300 :=
  ⟨by decide, cache_writes_have_fixed_ttl ctxCacheMiss _ (by decide)⟩

/-- Result of `getSuggestion` is never the 403 restriction response. -/
theorem getSuggestion_not_restricted (ctx : RequestCtx) (ev : HandlerEvent) :
    ∀ r, (getSuggestion ctx ev).result ≠ .restricted r := by
  intro r
  unfold getSuggestion
  repeat' split
  all_goals simp

/-- Characterization of the `policy_failure` chain. -/
theorem policyFailure_spec (policy : String) (consent : Option String) :
    (policyFailure policy consent = some "subprocessor" ↔
      policy = "subprocessor") ∧
    (policyFailure policy consent = some "individual_consent" ↔
      policy = "individual_consent" ∧ consent ≠ some "yes") ∧
    (∀ f, policyFailure policy consent = some f →
      f = "subprocessor" ∨ f = "individual_consent") := by
  unfold policyFailure
  split_ifs with h1 h2 h3 <;> simp_all

/-- C10: with a configured key, the feature enabled and an existing event, the
handler returns the 403 `{"restriction": <policy>}` response exactly when the
policy is `"subprocessor"`, or is `"individual_consent"` and the `consent`
query parameter is not `"yes"`; every other policy value (including unknown
ones, which only log a warning; `get_openai_policy` defaults to `"allowed"`)
lets the request proceed. -/
theorem policy_restriction_iff (ctx : RequestCtx) (ev : HandlerEvent)
    (hkey : ctx.openai_api_key.getD "" ≠ "")
    (hfeat : ctx.feature_enabled = true)
    (hev : ctx.event = some ev) :
    ((EventAiSuggestedFixEndpoint.get ctx).result =
        .restricted "subprocessor" ↔
      get_openai_policy ctx.policy_results = "subprocessor") ∧
    ((EventAiSuggestedFixEndpoint.get ctx).result =
        .restricted "individual_consent" ↔
      get_openai_policy ctx.policy_results = "individual_consent" ∧
        ctx.consent ≠ some "yes") ∧
    (∀ r, (EventAiSuggestedFixEndpoint.get ctx).result = .restricted r →
      r = "subprocessor" ∨ r = "individual_consent") ∧
    get_openai_policy [] = "allowed" := by
  have hget : EventAiSuggestedFixEndpoint.get ctx =
      match policyFailure (get_openai_policy ctx.policy_results) ctx.consent with
      | some failure => { result := .restricted failure }
      | none => getSuggestion ctx ev := by
    unfold EventAiSuggestedFixEndpoint.get
    rw [if_neg (by simp [hkey, hfeat]), hev]
  obtain ⟨hs1, hs2, hs3⟩ :=
    policyFailure_spec (get_openai_policy ctx.policy_results) ctx.consent
  cases hpf : policyFailure (get_openai_policy ctx.policy_results) ctx.consent with
  | none =>
    rw [hpf] at hget
    simp only [hget]
    refine ⟨?_, ?_, ?_, rfl⟩
    · constructor
      · intro h; exact absurd h (getSuggestion_not_restricted ctx ev _)
      · intro h; exact absurd (hpf ▸ hs1.mpr h) (by simp)
    · constructor
      · intro h; exact absurd h (getSuggestion_not_restricted ctx ev _)
      · intro h; exact absurd (hpf ▸ hs2.mpr h) (by simp)
    · intro r h; exact absurd h (getSuggestion_not_restricted ctx ev _)
  | some f =>
    rw [hpf] at hget
    simp only [hget]
    rw [hpf] at hs1 hs2 hs3
    refine ⟨?_, ?_, ?_, rfl⟩
    · constructor
      · intro h
        have : f = "subprocessor" := by simpa using h
        exact hs1.mp (by rw [this])
      · intro h
        have := hs1.mpr h
        simp at this
        simp [this]
    · constructor
      · intro h
        have : f = "individual_consent" := by simpa using h
        exact hs2.mp (by rw [this])
      · intro h
        have := hs2.mpr h
        simp at this
        simp [this]
    · intro r h
      have : f = r := by simpa using h
      exact this ▸ hs3 f rfl

/-- C3 counterexample: a request that passes the feature, event and policy
checks and misses the cache, yet calls the chat-completion API zero times
and stores nothing, because `describe_event_for_ai` raises `KeyError`
before the API call. -/
theorem cache_aside_counterexample :
    ctxKeyErrorMiss.cache.lookup ("ai:" ++ "h") = none ∧
      policyFailure (get_openai_policy ctxKeyErrorMiss.policy_results)
          ctxKeyErrorMiss.consent = none ∧
      (EventAiSuggestedFixEndpoint.get ctxKeyErrorMiss).apiCalls = 0 ∧
      (EventAiSuggestedFixEndpoint.get ctxKeyErrorMiss).cacheWrites = [] := by
  decide

/-- C3 (amended): with a configured key, the feature enabled, an existing
event and a passing policy check, the handler is cache-aside on the key
`"ai:" + primary hash`: on a hit the API is not called and the cached
suggestion is returned unchanged; on a miss, provided
`describe_event_for_ai` does not raise, the API is called exactly once and
its reply is both stored (with timeout 300) and returned. -/
theorem cache_aside (ctx : RequestCtx) (ev : HandlerEvent)
    (hkey : ctx.openai_api_key.getD "" ≠ "")
    (hfeat : ctx.feature_enabled = true)
    (hev : ctx.event = some ev)
    (hpol : policyFailure (get_openai_policy ctx.policy_results) ctx.consent
      = none) :
    (∀ s, ctx.cache.lookup ("ai:" ++ ev.primary_hash) = some s →
      EventAiSuggestedFixEndpoint.get ctx =
        { result := .suggestionResponse s }) ∧
    (ctx.cache.lookup ("ai:" ++ ev.primary_hash) = none →
      (describe_event_for_ai ev.data).isSome →
        EventAiSuggestedFixEndpoint.get ctx =
          { result := .suggestionResponse ctx.openai_content,
            cacheWrites :=
              [⟨"ai:" ++ ev.primary_hash, ctx.openai_content, 300⟩],
            apiCalls := 1 }) := by
  have hget : EventAiSuggestedFixEndpoint.get ctx = getSuggestion ctx ev := by
    unfold EventAiSuggestedFixEndpoint.get
    rw [if_neg (by simp [hkey, hfeat]), hev, hpol]
  constructor
  · intro s hs
    rw [hget]
    unfold getSuggestion
    rw [hs]
  · intro hmiss hdesc
    rw [hget]
    unfold getSuggestion
    rw [hmiss]
    obtain ⟨d, hd⟩ := Option.isSome_iff_exists.mp hdesc
    rw [hd]

/-- Witness for C3 (amended) at the concrete cache-hit request. -/
theorem cache_aside_witness :
    ctxCacheHit.cache.lookup ("ai:" ++ "h") = some "cached" ∧
      EventAiSuggestedFixEndpoint.get ctxCacheHit =
        { result := .suggestionResponse "cached" } :=
  ⟨by decide,
    (cache_aside ctxCacheHit ⟨{}, "h"⟩ (by decide) (by decide) rfl
      (by decide)).1 "cached" (by decide)⟩

/-- Witness for C10 at the concrete individual-consent request without
`consent=yes`: the 403 restriction response is actually produced. -/
theorem policy_restriction_iff_witness :
    (EventAiSuggestedFixEndpoint.get ctxConsentNo).result =
        .restricted "individual_consent" ↔
      get_openai_policy ctxConsentNo.policy_results = "individual_consent" ∧
        ctxConsentNo.consent ≠ some "yes" :=
  (policy_restriction_iff ctxConsentNo ⟨{}, "h"⟩ (by decide) (by decide)
    rfl).2.1

/-- A stack frame built from `first_in_app = False` carries no `crashed_here`
key, and the flag stays `False`. -/
theorem buildStackFrame_of_false (frame : RawFrame) (sf : StackFrame)
    (b : Bool) (h : buildStackFrame frame false = some (sf, b)) :
    sf.crashed_here = none ∧ b = false := by
  unfold buildStackFrame at h
  cases hin : frame.in_app with
  | none => rw [hin] at h; simp at h
  | some ia =>
    rw [hin] at h
    dsimp only at h
    split at h <;> (try split at h) <;>
      (simp only [Option.some.injEq, Prod.mk.injEq] at h
       obtain ⟨h1, h2⟩ := h
       subst h1
       subst h2
       exact ⟨rfl, rfl⟩)

/-- Every frame produced by the frame loop started with `first_in_app = False`
carries no `crashed_here` key. -/
theorem buildStacktrace_no_crashed_here :
    ∀ (frames : List RawFrame) (sfs : List StackFrame),
      buildStacktrace frames false = some sfs →
      ∀ sf ∈ sfs, sf.crashed_here = none
  | [], sfs, h => by
    unfold buildStacktrace at h
    simp at h
    subst h
    intro sf hsf
    simp at hsf
  | f :: rest, sfs, h => by
    unfold buildStacktrace at h
    cases hbf : buildStackFrame f false with
    | none => rw [hbf] at h; simp at h
    | some p =>
      obtain ⟨sf₀, b⟩ := p
      rw [hbf] at h
      obtain ⟨hch, rfl⟩ := buildStackFrame_of_false f sf₀ b hbf
      dsimp only at h
      cases hbs : buildStacktrace rest false with
      | none => rw [hbs] at h; simp at h
      | some sfs' =>
        rw [hbs] at h
        simp at h
        subst h
        intro sf hsf
        rcases List.mem_cons.mp hsf with rfl | hsf'
        · exact hch
        · exact buildStacktrace_no_crashed_here rest sfs' hbs sf hsf'

/-- Frames returned by `trim_frames` are (unmutated) members of the input
list. -/
theorem trim_frames_subset {α : Type} (inApp del : α → Bool) (frames : List α)
    (fa : Nat) : ∀ x ∈ trim_frames inApp del frames fa, x ∈ frames := by
  intro x hx
  unfold trim_frames at hx
  split at hx
  · exact hx
  · simp only [List.mem_map, List.mem_filter] at hx
    obtain ⟨p, ⟨hp, _⟩, rfl⟩ := hx
    have := List.mem_map_of_mem Prod.snd hp
    rwa [List.enum_map_snd] at this

/-- Stacktrace key of the pre-frames exception dictionary is unset. -/
theorem buildExceptionBase_stacktrace (idx : Nat) (exc : ExcValue)
    (ty : String) : (buildExceptionBase idx exc ty).stacktrace = none := by
  unfold buildExceptionBase
  dsimp only
  split <;> (try split) <;> (try split) <;> rfl

/-- No exception built by the exception loop contains a stack frame with the
`crashed_here` key. -/
theorem buildException_no_crashed_here (idx : Nat) (exc : ExcValue)
    (e : ExceptionOut) (h : buildException idx exc = some e) :
    ∀ st, e.stacktrace = some st → ∀ f ∈ st, f.crashed_here = none := by
  unfold buildException at h
  cases hty : exc.type with
  | none => rw [hty] at h; simp at h
  | some ty =>
    rw [hty] at h
    dsimp only at h
    cases hst : exc.stacktrace_frames with
    | none =>
      rw [hst] at h
      simp only [Option.some.injEq] at h
      subst h
      intro st hste
      rw [buildExceptionBase_stacktrace] at hste
      simp at hste
    | some fs =>
      rw [hst] at h
      dsimp only at h
      by_cases hemp : fs.isEmpty
      · rw [if_pos hemp] at h
        simp only [Option.some.injEq] at h
        subst h
        intro st hste
        rw [buildExceptionBase_stacktrace] at hste
        simp at hste
      · rw [if_neg hemp] at h
        cases hbs : buildStacktrace fs.reverse false with
        | none => rw [hbs] at h; simp at h
        | some st₀ =>
          rw [hbs] at h
          dsimp only at h
          by_cases hemp₀ : st₀.isEmpty
          · rw [if_pos hemp₀] at h
            simp only [Option.some.injEq] at h
            subst h
            intro st hste
            rw [buildExceptionBase_stacktrace] at hste
            simp at hste
          · rw [if_neg hemp₀] at h
            simp only [Option.some.injEq] at h
            subst h
            intro st hste
            simp only [Option.some.injEq] at hste
            subst hste
            intro f hf
            exact buildStacktrace_no_crashed_here fs.reverse st₀ hbs f
              (trim_frames_subset _ _ _ _ f hf)

/-- No exception in the list built by the exception loop contains a frame
with `crashed_here`. -/
theorem buildExceptions_no_crashed_here :
    ∀ (idx : Nat) (excs : List ExcValue) (outs : List ExceptionOut),
      buildExceptions idx excs = some outs →
      ∀ e ∈ outs, ∀ st, e.stacktrace = some st →
        ∀ f ∈ st, f.crashed_here = none
  | _, [], outs, h => by
    unfold buildExceptions at h
    simp at h
    subst h
    intro e he
    simp at he
  | idx, exc :: rest, outs, h => by
    unfold buildExceptions at h
    cases hbe : buildException idx exc with
    | none => rw [hbe] at h; simp at h
    | some e₀ =>
      rw [hbe] at h
      dsimp only at h
      cases hbr : buildExceptions (idx + 1) rest with
      | none => rw [hbr] at h; simp at h
      | some outs' =>
        rw [hbr] at h
        simp only [Option.some.injEq] at h
        subst h
        intro e he
        rcases List.mem_cons.mp he with rfl | he'
        · exact buildException_no_crashed_here idx exc e hbe
        · exact buildExceptions_no_crashed_here (idx + 1) rest outs' hbr e he'

/-- C8: no stack frame in any description produced by
`describe_event_for_ai` carries the `crashed_here` marker: `first_in_app`
is initialized to `False` and never set to `True`, so the branch that adds
`crashed_here` is unreachable. -/
theorem describe_event_no_crashed_here (event : EventData) (d : AIDescription)
    (h : describe_event_for_ai event = some d) :
    ∀ e ∈ d.exceptions, ∀ st, e.stacktrace = some st →
      ∀ f ∈ st, f.crashed_here = none := by
  unfold describe_event_for_ai at h
  cases hbe : buildExceptions 0
      ((event.exception_values.take MAX_STACKTRACE_FRAMES).reverse) with
  | none => rw [hbe] at h; simp at h
  | some outs =>
    rw [hbe] at h
    simp only [Option.some.injEq] at h
    subst h
    intro e he
    exact buildExceptions_no_crashed_here 0 _ outs hbe e he

/-- Witness for C8 at a concrete event whose description contains an in-app
stack frame. -/
theorem describe_event_no_crashed_here_witness :
    describe_event_for_ai evOneFrame = some descOneFrame ∧
      ({ in_app := some true : StackFrame }).crashed_here = none :=
  ⟨by decide,
    describe_event_no_crashed_here evOneFrame descOneFrame (by decide)
      { number := 1, type := "E", stacktrace := some [{ in_app := some true }] }
      (by decide) [{ in_app := some true }] (by decide)
      { in_app := some true } (by decide)⟩

/-- Frame loop body is total when the frame has the `in_app` key. -/
theorem buildStackFrame_isSome (f : RawFrame) (b : Bool)
    (h : f.in_app.isSome) : (buildStackFrame f b).isSome := by
  obtain ⟨ia, hia⟩ := Option.isSome_iff_exists.mp h
  unfold buildStackFrame
  rw [hia]
  dsimp only
  split <;> simp

/-- Frame loop is total when every frame has the `in_app` key. -/
theorem buildStacktrace_isSome :
    ∀ (frames : List RawFrame) (b : Bool),
      (∀ f ∈ frames, f.in_app.isSome) → (buildStacktrace frames b).isSome
  | [], _, _ => by simp [buildStacktrace]
  | f :: rest, b, h => by
    have hbf := buildStackFrame_isSome f b (h f (List.mem_cons_self f rest))
    obtain ⟨p, hp⟩ := Option.isSome_iff_exists.mp hbf
    obtain ⟨sf, b'⟩ := p
    have ih := buildStacktrace_isSome rest b'
      (fun g hg => h g (List.mem_cons_of_mem f hg))
    obtain ⟨sfs, hsfs⟩ := Option.isSome_iff_exists.mp ih
    unfold buildStacktrace
    rw [hp]
    dsimp only
    rw [hsfs]
    simp

/-- Exception-loop body is total when `exc["type"]` is present and every
frame of its stacktrace has the `in_app` key. -/
theorem buildException_isSome (idx : Nat) (exc : ExcValue)
    (hty : exc.type.isSome)
    (hfr : ∀ f ∈ exc.stacktrace_frames.getD [], f.in_app.isSome) :
    (buildException idx exc).isSome := by
  obtain ⟨ty, hty'⟩ := Option.isSome_iff_exists.mp hty
  unfold buildException
  rw [hty']
  dsimp only
  cases hst : exc.stacktrace_frames with
  | none => simp
  | some fs =>
    dsimp only
    by_cases hemp : fs.isEmpty
    · simp [hemp]
    · rw [if_neg hemp]
      rw [hst] at hfr
      have h1 := buildStacktrace_isSome fs.reverse false
        (fun f hf => hfr f (List.mem_reverse.mp hf))
      obtain ⟨st, hst'⟩ := Option.isSome_iff_exists.mp h1
      rw [hst']
      dsimp only
      split <;> simp

/-- Exception loop is total under the preconditions of its body. -/
theorem buildExceptions_isSome :
    ∀ (idx : Nat) (excs : List ExcValue),
      (∀ exc ∈ excs, exc.type.isSome ∧
        ∀ f ∈ exc.stacktrace_frames.getD [], f.in_app.isSome) →
      (buildExceptions idx excs).isSome
  | _, [], _ => by simp [buildExceptions]
  | idx, exc :: rest, h => by
    obtain ⟨hty, hfr⟩ := h exc (List.mem_cons_self exc rest)
    obtain ⟨e, he⟩ :=
      Option.isSome_iff_exists.mp (buildException_isSome idx exc hty hfr)
    obtain ⟨es, hes⟩ := Option.isSome_iff_exists.mp
      (buildExceptions_isSome (idx + 1) rest
        (fun x hx => h x (List.mem_cons_of_mem exc hx)))
    unfold buildExceptions
    rw [he]
    dsimp only
    rw [hes]
    simp

/-- C9: `describe_event_for_ai` is total exactly under the unstated
precondition that every processed exception value has a `type` key and every
frame of a present stacktrace has an `in_app` key; a missing `type` or a
missing `in_app` raises `KeyError` (returns `none`), as witnessed by the two
concrete events. -/
theorem describe_event_requires_type_and_in_app :
    (∀ event : EventData,
        (∀ exc ∈ event.exception_values.take MAX_STACKTRACE_FRAMES,
          exc.type.isSome ∧
            ∀ f ∈ exc.stacktrace_frames.getD [], f.in_app.isSome) →
        (describe_event_for_ai event).isSome) ∧
      describe_event_for_ai { exception_values := [{}] } = none ∧
      describe_event_for_ai
          { exception_values :=
              [{ type := some "E",
                 stacktrace_frames := some [{ function := some "f" }] }] }
        = none := by
  refine ⟨?_, by decide, by decide⟩
  intro event h
  obtain ⟨outs, houts⟩ := Option.isSome_iff_exists.mp
    (buildExceptions_isSome 0
      ((event.exception_values.take MAX_STACKTRACE_FRAMES).reverse)
      (fun exc hexc => h exc (List.mem_reverse.mp hexc)))
  unfold describe_event_for_ai
  rw [houts]
  simp

/-- Witness for C9: the totality direction applied to the concrete event
`evOneFrame`, whose exception has a `type` and whose frame has `in_app`. -/
theorem describe_event_requires_type_and_in_app_witness :
    (∀ exc ∈ evOneFrame.exception_values.take MAX_STACKTRACE_FRAMES,
        exc.type.isSome ∧
          ∀ f ∈ exc.stacktrace_frames.getD [], f.in_app.isSome) ∧
      (describe_event_for_ai evOneFrame).isSome :=
  ⟨by decide, describe_event_requires_type_and_in_app.1 evOneFrame (by decide)⟩

/-- Comparison `tagLE` implies comparison of the keys. -/
theorem tagLE_key_le {a b : String × String} (h : tagLE a b) :
    a.1.data ≤ b.1.data := by
  rcases h with h | ⟨h, _⟩
  · exact le_of_lt h
  · exact le_of_eq (by rw [h])

instance : IsTotal (String × String) tagLE :=
  ⟨by
    intro a b
    rcases lt_trichotomy a.1.data b.1.data with h | h | h
    · exact Or.inl (Or.inl h)
    · have hk : a.1 = b.1 := String.ext h
      rcases le_total a.2.data b.2.data with h2 | h2
      · exact Or.inl (Or.inr ⟨hk, h2⟩)
      · exact Or.inr (Or.inr ⟨hk.symm, h2⟩)
    · exact Or.inr (Or.inl h)⟩

instance : IsTrans (String × String) tagLE :=
  ⟨by
    intro a b c hab hbc
    rcases hab with h | ⟨h1, h2⟩ <;> rcases hbc with h' | ⟨h1', h2'⟩
    · exact Or.inl (lt_trans h h')
    · exact Or.inl (by rw [← h1']; exact h)
    · exact Or.inl (by rw [h1]; exact h')
    · exact Or.inr ⟨h1.trans h1', le_trans h2 h2'⟩⟩

instance : IsAntisymm (String × String) tagLE :=
  ⟨by
    intro a b hab hba
    rcases hab with h | ⟨h1, h2⟩
    · rcases hba with h' | ⟨h1', h2'⟩
      · exact absurd (lt_trans h h') (lt_irrefl _)
      · rw [h1'] at h
        exact absurd h (lt_irrefl _)
    · rcases hba with h' | ⟨h1', h2'⟩
      · rw [h1] at h'
        exact absurd h' (lt_irrefl _)
      · have hv : a.2 = b.2 := String.ext (le_antisymm h2 h2')
        exact Prod.ext h1 hv⟩

/-- Members of an upsert are the new pair or members of the old dictionary. -/
theorem mem_upsert {β : Type} :
    ∀ (d : List (String × β)) (k : String) (v : β) (p : String × β),
      p ∈ upsert d k v → p = (k, v) ∨ p ∈ d
  | [], k, v, p, h => by
    unfold upsert at h
    simp at h
    exact Or.inl h
  | (k', v') :: rest, k, v, p, h => by
    unfold upsert at h
    by_cases hk : k' = k
    · rw [if_pos hk] at h
      rcases List.mem_cons.mp h with rfl | hr
      · exact Or.inl (by rw [hk])
      · exact Or.inr (List.mem_cons_of_mem _ hr)
    · rw [if_neg hk] at h
      rcases List.mem_cons.mp h with rfl | hr
      · exact Or.inr (List.mem_cons_self _ _)
      · rcases mem_upsert rest k v p hr with h1 | h1
        · exact Or.inl h1
        · exact Or.inr (List.mem_cons_of_mem _ h1)

/-- Members of the dictionary fold are members of the seed or of the input. -/
theorem mem_foldl_upsert :
    ∀ (l d : List (String × String)) (p : String × String),
      p ∈ l.foldl (fun d q => upsert d q.1 q.2) d → p ∈ d ∨ p ∈ l
  | [], _, _, h => Or.inl h
  | x :: rest, d, p, h => by
    simp only [List.foldl_cons] at h
    rcases mem_foldl_upsert rest (upsert d x.1 x.2) p h with h1 | h1
    · rcases mem_upsert d x.1 x.2 p h1 with h2 | h2
      · refine Or.inr ?_
        rw [h2, Prod.mk.eta]
        exact List.mem_cons_self _ _
      · exact Or.inl h2
    · exact Or.inr (List.mem_cons_of_mem _ h1)

/-- Upsert preserves key-sortedness when the new key dominates the
dictionary. -/
theorem upsert_pairwise :
    ∀ (d : List (String × String)) (k v : String),
      d.Pairwise (fun p q => p.1.data ≤ q.1.data) →
      (∀ p ∈ d, p.1.data ≤ k.data) →
      (upsert d k v).Pairwise (fun p q => p.1.data ≤ q.1.data)
  | [], _, _, _, _ => by simp [upsert]
  | (k', v') :: rest, k, v, hd, hk => by
    unfold upsert
    rcases List.pairwise_cons.mp hd with ⟨h1, h2⟩
    by_cases h : k' = k
    · rw [if_pos h]
      exact List.pairwise_cons.mpr ⟨h1, h2⟩
    · rw [if_neg h]
      refine List.pairwise_cons.mpr
        ⟨?_, upsert_pairwise rest k v h2
          (fun p hp => hk p (List.mem_cons_of_mem _ hp))⟩
      intro p hp
      rcases mem_upsert rest k v p hp with rfl | hpd
      · exact hk (k', v') (List.mem_cons_self _ _)
      · exact h1 p hpd

/-- Folding a `tagLE`-sorted list of pairs into the dictionary yields a
key-sorted dictionary. -/
theorem foldl_upsert_sorted :
    ∀ (l d : List (String × String)),
      l.Pairwise tagLE →
      d.Pairwise (fun p q => p.1.data ≤ q.1.data) →
      (∀ p ∈ d, ∀ x ∈ l, p.1.data ≤ x.1.data) →
      (l.foldl (fun d q => upsert d q.1 q.2) d).Pairwise
        (fun p q => p.1.data ≤ q.1.data)
  | [], _, _, hd, _ => hd
  | x :: rest, d, hl, hd, hdl => by
    simp only [List.foldl_cons]
    rcases List.pairwise_cons.mp hl with ⟨hx, hrest⟩
    refine foldl_upsert_sorted rest (upsert d x.1 x.2) hrest ?_ ?_
    · exact upsert_pairwise d x.1 x.2 hd
        (fun p hp => hdl p hp x (List.mem_cons_self _ _))
    · intro p hp y hy
      rcases mem_upsert d x.1 x.2 p hp with rfl | hpd
      · exact tagLE_key_le (hx y hy)
      · exact hdl p hpd y (List.mem_cons_of_mem _ hy)

/-- Skipping blocked keys during the fold is the same as filtering them out
first. -/
theorem foldl_tagStep_eq_filter :
    ∀ (l d : List (String × String)),
      l.foldl (fun d p => if p.1 ∈ BLOCKED_TAGS then d else upsert d p.1 p.2) d
        = (l.filter fun p => !decide (p.1 ∈ BLOCKED_TAGS)).foldl
            (fun d p => upsert d p.1 p.2) d
  | [], _ => rfl
  | p :: rest, d => by
    simp only [List.foldl_cons, List.filter_cons]
    by_cases h : p.1 ∈ BLOCKED_TAGS
    · simp only [h]
      simp
      exact foldl_tagStep_eq_filter rest d
    · simp only [h]
      simp
      exact foldl_tagStep_eq_filter rest (upsert d p.1 p.2)

/-- Tags dictionary of the description, as a fold over the filtered sort. -/
theorem describeTags_eq (tags : List (String × String)) :
    describeTags tags
      = ((List.insertionSort tagLE tags).filter
            fun p => !decide (p.1 ∈ BLOCKED_TAGS)).foldl
          (fun d p => upsert d p.1 p.2) [] :=
  foldl_tagStep_eq_filter _ []

/-- No blocked key survives into the tags dictionary. -/
theorem describeTags_not_blocked (tags : List (String × String)) :
    ∀ p ∈ describeTags tags, p.1 ∉ BLOCKED_TAGS := by
  intro p hp
  rw [describeTags_eq] at hp
  rcases mem_foldl_upsert _ [] p hp with h | h
  · simp at h
  · simpa using List.of_mem_filter h

/-- Tags dictionary is sorted by key. -/
theorem describeTags_sorted (tags : List (String × String)) :
    (describeTags tags).Pairwise (fun p q => p.1.data ≤ q.1.data) := by
  rw [describeTags_eq]
  refine foldl_upsert_sorted _ [] ?_ (by simp) (by simp)
  exact (List.sorted_insertionSort tagLE tags).filter _

/-- Tags dictionary depends only on the unblocked tags. -/
theorem describeTags_eq_of_unblocked_eq (t₁ t₂ : List (String × String))
    (h : List.Forall₂
      (fun p q => p.1 = q.1 ∧ (p.1 ∉ BLOCKED_TAGS → p.2 = q.2)) t₁ t₂) :
    describeTags t₁ = describeTags t₂ := by
  have hf : t₁.filter (fun p => !decide (p.1 ∈ BLOCKED_TAGS))
      = t₂.filter (fun p => !decide (p.1 ∈ BLOCKED_TAGS)) := by
    induction h with
    | nil => rfl
    | @cons a₁ a₂ l₁ l₂ hpq hrest ih =>
      obtain ⟨hk, hv⟩ := hpq
      simp only [List.filter_cons]
      by_cases hb : a₁.1 ∈ BLOCKED_TAGS
      · have hb₂ : a₂.1 ∈ BLOCKED_TAGS := by rw [← hk]; exact hb
        simp only [hb, hb₂]
        simp
        exact ih
      · have hb₂ : a₂.1 ∉ BLOCKED_TAGS := by rw [← hk]; exact hb
        have ha : a₁ = a₂ := Prod.ext hk (hv hb)
        simp only [hb, hb₂, ha]
        simp
        rw [ih]
  have hs : (List.insertionSort tagLE t₁).filter
        (fun p => !decide (p.1 ∈ BLOCKED_TAGS))
      = (List.insertionSort tagLE t₂).filter
        (fun p => !decide (p.1 ∈ BLOCKED_TAGS)) := by
    apply List.eq_of_perm_of_sorted (r := tagLE)
    · exact ((List.perm_insertionSort tagLE t₁).filter _).trans
        (hf ▸ ((List.perm_insertionSort tagLE t₂).filter _).symm)
    · exact (List.sorted_insertionSort tagLE t₁).filter _
    · exact (List.sorted_insertionSort tagLE t₂).filter _
  rw [describeTags_eq, describeTags_eq, hs]

/-- C2: the description sent to the language model is sanitized: no tag with
a key in `BLOCKED_TAGS` appears in the output of `describe_event_for_ai`,
the kept tags appear sorted by key, and two events that differ only in the
values of blocked tags produce the same description. -/
theorem describe_event_tags_sanitized :
    (∀ (e : EventData) (d : AIDescription), describe_event_for_ai e = some d →
        (∀ p ∈ d.tags, p.1 ∉ BLOCKED_TAGS) ∧
          d.tags.Pairwise (fun p q => p.1 ≤ q.1)) ∧
      ∀ e₁ e₂ : EventData,
        e₁.exception_values = e₂.exception_values →
        e₁.message = e₂.message →
        List.Forall₂
          (fun p q => p.1 = q.1 ∧ (p.1 ∉ BLOCKED_TAGS → p.2 = q.2))
          e₁.tags e₂.tags →
        describe_event_for_ai e₁ = describe_event_for_ai e₂ := by
  constructor
  · intro e d h
    have hdt : d.tags = describeTags e.tags := by
      unfold describe_event_for_ai at h
      cases hbe : buildExceptions 0
          ((e.exception_values.take MAX_STACKTRACE_FRAMES).reverse) with
      | none => rw [hbe] at h; simp at h
      | some outs =>
        rw [hbe] at h
        simp only [Option.some.injEq] at h
        rw [← h]
    rw [hdt]
    refine ⟨describeTags_not_blocked e.tags, ?_⟩
    refine (describeTags_sorted e.tags).imp ?_
    intro p q hpq
    exact String.le_iff_toList_le.mpr hpq
  · intro e₁ e₂ hexc hmsg htags
    unfold describe_event_for_ai
    rw [hexc, hmsg, describeTags_eq_of_unblocked_eq e₁.tags e₂.tags htags]

/-- Witness for C2 at the concrete events `evTagsA`, `evTagsB`. -/
theorem describe_event_tags_sanitized_witness :
    describe_event_for_ai evTagsA
        = some { tags := [("alpha", "a"), ("zeta", "z")] } ∧
      ((∀ p ∈ ({ tags := [("alpha", "a"), ("zeta", "z")] }
            : AIDescription).tags, p.1 ∉ BLOCKED_TAGS) ∧
        ({ tags := [("alpha", "a"), ("zeta", "z")] }
            : AIDescription).tags.Pairwise (fun p q => p.1 ≤ q.1)) ∧
      describe_event_for_ai evTagsA = describe_event_for_ai evTagsB :=
  ⟨by decide,
    describe_event_tags_sanitized.1 evTagsA _ (by decide),
    describe_event_tags_sanitized.2 evTagsA evTagsB rfl rfl
      (by
        refine List.Forall₂.cons ⟨rfl, fun hc => ?_⟩
          (List.Forall₂.cons ⟨rfl, fun _ => rfl⟩
            (List.Forall₂.cons ⟨rfl, fun _ => rfl⟩ List.Forall₂.nil))
        exact absurd (show ("user" : String) ∈ BLOCKED_TAGS by decide) hc)⟩

/-- Effective slice bounds never exceed the list length. -/
theorem pyIdx_le (len : Nat) (i : Int) : pyIdx len i ≤ len := by
  unfold pyIdx
  split <;> omega

/-- Length of a Python slice. -/
theorem pySlice_length {α : Type} (l : List α) (a b : Int) :
    (pySlice l a b).length = pyIdx l.length b - pyIdx l.length a := by
  have hb := pyIdx_le l.length b
  simp only [pySlice, List.length_drop, List.length_take]
  omega

/-- Effective bound of a non-negative slice index. -/
theorem pyIdx_natCast (len n : Nat) : pyIdx len (n : Int) = min n len := by
  unfold pyIdx
  split <;> omega

/-- Effective bound of a negative slice index. -/
theorem pyIdx_neg_natCast (len n : Nat) (h : 0 < n) :
    pyIdx len (-(n : Int)) = len - n := by
  unfold pyIdx
  split <;> omega

/-- A Python slice is a sublist. -/
theorem pySlice_sublist {α : Type} (l : List α) (a b : Int) :
    (pySlice l a b).Sublist l :=
  ((List.drop_sublist _ _).trans (List.take_sublist _ _))

section TrimLemmas

variable {α : Type} (inApp del : α → Bool) (frames : List α) (fa : Nat)

/-- App indices are a sublist of all positions. -/
theorem tfAppIdx_sublist :
    (tfAppIdx inApp frames).Sublist (List.range frames.length) := by
  unfold tfAppIdx
  have h := (List.filter_sublist frames.enum
    (p := fun p => inApp p.2)).map Prod.fst
  rwa [List.enum_map_fst] at h

/-- System indices are a sublist of all positions. -/
theorem tfSysIdx_sublist :
    (tfSysIdx inApp frames).Sublist (List.range frames.length) := by
  unfold tfSysIdx
  have h := (List.filter_sublist frames.enum
    (p := fun p => !inApp p.2)).map Prod.fst
  rwa [List.enum_map_fst] at h

/-- Membership characterization of the app indices. -/
theorem mem_tfAppIdx {i : Nat} :
    i ∈ tfAppIdx inApp frames ↔
      ∃ x, frames[i]? = some x ∧ inApp x = true := by
  unfold tfAppIdx
  simp only [List.mem_map, List.mem_filter]
  constructor
  · rintro ⟨⟨j, x⟩, ⟨he, hq⟩, rfl⟩
    exact ⟨x, List.mk_mem_enum_iff_getElem?.mp he, hq⟩
  · rintro ⟨x, hx, hq⟩
    exact ⟨(i, x), ⟨List.mk_mem_enum_iff_getElem?.mpr hx, hq⟩, rfl⟩

/-- Membership characterization of the system indices. -/
theorem mem_tfSysIdx {i : Nat} :
    i ∈ tfSysIdx inApp frames ↔
      ∃ x, frames[i]? = some x ∧ inApp x = false := by
  unfold tfSysIdx
  simp only [List.mem_map, List.mem_filter]
  constructor
  · rintro ⟨⟨j, x⟩, ⟨he, hq⟩, rfl⟩
    exact ⟨x, List.mk_mem_enum_iff_getElem?.mp he, by simpa using hq⟩
  · rintro ⟨x, hx, hq⟩
    exact ⟨(i, x), ⟨List.mk_mem_enum_iff_getElem?.mpr hx, by simpa using hq⟩,
      rfl⟩

/-- App and system indices are disjoint. -/
theorem tf_disjoint :
    (tfSysIdx inApp frames).Disjoint (tfAppIdx inApp frames) := by
  rw [List.disjoint_left]
  intro i hs ha
  obtain ⟨x, hx, hxq⟩ := (mem_tfSysIdx inApp frames).mp hs
  obtain ⟨y, hy, hyq⟩ := (mem_tfAppIdx inApp frames).mp ha
  rw [hx] at hy
  cases hy
  rw [hxq] at hyq
  exact Bool.false_ne_true hyq

/-- Positions split into app and system positions. -/
theorem tf_length_add :
    (tfAppIdx inApp frames).length + (tfSysIdx inApp frames).length
      = frames.length := by
  unfold tfAppIdx tfSysIdx
  simp only [List.length_map]
  have h := List.length_eq_length_filter_add
    (l := frames.enum) (fun p => inApp p.2)
  rw [List.enum_length] at h
  omega

/-- Number of app positions is the count of in-app frames. -/
theorem tfAppIdx_length :
    (tfAppIdx inApp frames).length = frames.countP inApp := by
  unfold tfAppIdx
  simp only [List.length_map]
  rw [← List.countP_eq_length_filter]
  have h : frames.countP inApp = (frames.enum.map Prod.snd).countP inApp := by
    rw [List.enum_map_snd]
  rw [h, List.countP_map]
  rfl

end TrimLemmas

section TrimLemmas2

variable {α : Type} (inApp del : α → Bool) (frames : List α) (fa : Nat)

/-- Marked system positions are system positions. -/
theorem tfMarkedSys_sublist :
    (tfMarkedSys inApp frames fa).Sublist (tfSysIdx inApp frames) := by
  unfold tfMarkedSys
  dsimp only
  split
  · exact pySlice_sublist _ _ _
  · exact List.Sublist.refl _

/-- Marked app positions are app positions. -/
theorem tfMarkedApp_sublist :
    (tfMarkedApp inApp frames fa).Sublist (tfAppIdx inApp frames) := by
  unfold tfMarkedApp
  split
  · exact pySlice_sublist _ _ _
  · exact List.nil_sublist _

/-- Marked positions are distinct. -/
theorem tfMarked_nodup : (tfMarked inApp frames fa).Nodup := by
  unfold tfMarked
  have hnr := List.nodup_range frames.length
  refine List.Nodup.append
    ((tfMarkedSys_sublist inApp frames fa).nodup
      ((tfSysIdx_sublist inApp frames).nodup hnr))
    ((tfMarkedApp_sublist inApp frames fa).nodup
      ((tfAppIdx_sublist inApp frames).nodup hnr)) ?_
  intro i hi hi'
  exact tf_disjoint inApp frames
    ((tfMarkedSys_sublist inApp frames fa).subset hi)
    ((tfMarkedApp_sublist inApp frames fa).subset hi')

/-- Marked positions are positions of the frame list. -/
theorem tfMarked_lt : ∀ i ∈ tfMarked inApp frames fa, i < frames.length := by
  intro i hi
  rcases List.mem_append.mp hi with h | h
  · exact List.mem_range.mp ((tfSysIdx_sublist inApp frames).subset
      ((tfMarkedSys_sublist inApp frames fa).subset h))
  · exact List.mem_range.mp ((tfAppIdx_sublist inApp frames).subset
      ((tfMarkedApp_sublist inApp frames fa).subset h))

end TrimLemmas2

/-- Counting the range positions that lie in a given duplicate-free set. -/
theorem length_filter_contains_range (N : Nat) (m : List Nat) (hnd : m.Nodup)
    (hsub : ∀ i ∈ m, i < N) :
    ((List.range N).filter fun i => m.contains i).length = m.length := by
  have hnd2 : ((List.range N).filter fun i => m.contains i).Nodup :=
    (List.nodup_range N).filter _
  have hperm : ((List.range N).filter fun i => m.contains i).Perm m := by
    rw [List.perm_ext_iff_of_nodup hnd2 hnd]
    intro a
    simp only [List.mem_filter, List.mem_range]
    constructor
    · rintro ⟨_, h⟩
      simpa using h
    · intro h
      exact ⟨hsub a h, by simpa using h⟩
  exact hperm.length_eq

/-- Counting the enumerated pairs whose position lies in a duplicate-free
set of positions. -/
theorem length_filter_fst_contains {α : Type} (l : List α) (m : List Nat)
    (hnd : m.Nodup) (hsub : ∀ i ∈ m, i < l.length) :
    (l.enum.filter fun p => m.contains p.1).length = m.length := by
  have h1 : ((l.enum.map Prod.fst).filter fun i => m.contains i)
      = (l.enum.filter fun p => m.contains p.1).map Prod.fst := by
    rw [List.filter_map]
    rfl
  have h2 : ((l.enum.map Prod.fst).filter fun i => m.contains i).length
      = (l.enum.filter fun p => m.contains p.1).length := by
    rw [h1, List.length_map]
  rw [← h2, List.enum_map_fst]
  exact length_filter_contains_range l.length m hnd hsub

/-- Kept plus marked frames do not exceed the input frames (each marked
position loses exactly one frame in the final comprehension). -/
theorem trim_frames_length_add_marked {α : Type} (inApp del : α → Bool)
    (frames : List α) (fa : Nat) (h : ¬ frames.length ≤ fa) :
    (trim_frames inApp del frames fa).length
      + (tfMarked inApp frames fa).length ≤ frames.length := by
  unfold trim_frames
  rw [if_neg h]
  dsimp only
  simp only [List.length_map]
  have hfm : (frames.enum.filter fun p =>
        !((tfMarked inApp frames fa).contains p.1) && !(del p.2)).length
      ≤ (frames.enum.filter fun p =>
        !((tfMarked inApp frames fa).contains p.1)).length := by
    rw [← List.countP_eq_length_filter, ← List.countP_eq_length_filter]
    apply List.countP_mono_left
    intro x _ hx
    exact ((Bool.and_eq_true _ _).mp hx).1
  have hpart : frames.length
      = (frames.enum.filter fun p =>
          (tfMarked inApp frames fa).contains p.1).length
        + (frames.enum.filter fun p =>
          !((tfMarked inApp frames fa).contains p.1)).length := by
    have h0 := List.length_eq_length_filter_add (l := frames.enum)
      (fun p => (tfMarked inApp frames fa).contains p.1)
    rw [List.enum_length] at h0
    exact h0
  have hcnt := length_filter_fst_contains frames (tfMarked inApp frames fa)
    (tfMarked_nodup inApp frames fa) (tfMarked_lt inApp frames fa)
  omega

/-- Truncating division of a cast natural by 2. -/
theorem int_tdiv_two (n : Nat) : Int.tdiv (n : Int) 2 = ((n / 2 : Nat) : Int) :=
  rfl

/-- Under the amended hypotheses, at least `frames_len - frame_allowance`
positions get marked. -/
theorem tfMarked_length_ge {α : Type} (inApp : α → Bool) (frames : List α)
    (fa : Nat) (hN : fa < frames.length) (h2 : 2 ≤ fa)
    (hne : fa ≠ frames.countP inApp + 1) :
    frames.length - fa ≤ (tfMarked inApp frames fa).length := by
  have hA := tfAppIdx_length inApp frames
  have hAS := tf_length_add inApp frames
  rw [← hA] at hne
  have hsa : tfSystemAllowance inApp frames fa
      = fa - (tfAppIdx inApp frames).length := rfl
  unfold tfMarked
  rw [List.length_append]
  by_cases h0 : tfSystemAllowance inApp frames fa = 0
  · have hms : tfMarkedSys inApp frames fa = tfSysIdx inApp frames := by
      unfold tfMarkedSys
      dsimp only
      rw [if_neg (by simpa using h0)]
    have hmsl : (tfMarkedSys inApp frames fa).length
        = (tfSysIdx inApp frames).length := by rw [hms]
    rw [hsa] at h0
    have hrem : tfRemaining inApp frames fa
        = ((tfAppIdx inApp frames).length : Int) - fa := by
      unfold tfRemaining
      rw [hmsl]
      omega
    by_cases hAfa : (tfAppIdx inApp frames).length = fa
    · have hma : tfMarkedApp inApp frames fa = [] := by
        unfold tfMarkedApp
        rw [if_neg (by rw [hrem, hAfa]; simp)]
      rw [hmsl, hma]
      simp only [List.length_nil]
      omega
    · have hfalt : fa < (tfAppIdx inApp frames).length := by omega
      have hremne : tfRemaining inApp frames fa ≠ 0 := by
        rw [hrem]
        omega
      have hma : tfMarkedApp inApp frames fa
          = pySlice (tfAppIdx inApp frames) ((fa / 2 : Nat) : Int)
              (-((fa / 2 : Nat) : Int)) := by
        unfold tfMarkedApp
        rw [if_pos hremne]
        dsimp only
        rw [hrem]
        have h1 : ((tfAppIdx inApp frames).length : Int)
            - (((tfAppIdx inApp frames).length : Int) - fa)
            = ((fa : Nat) : Int) := by ring
        rw [h1, int_tdiv_two]
      have hmal : (tfMarkedApp inApp frames fa).length
          = (tfAppIdx inApp frames).length - 2 * (fa / 2) := by
        rw [hma, pySlice_length, pyIdx_natCast,
          pyIdx_neg_natCast _ _ (by omega : 0 < fa / 2)]
        omega
      rw [hmsl, hmal]
      omega
  · rw [hsa] at h0
    have hsa1 : fa - (tfAppIdx inApp frames).length ≠ 1 := by omega
    have hsage : 2 ≤ fa - (tfAppIdx inApp frames).length := by omega
    have hSge : (fa - (tfAppIdx inApp frames).length) + 1
        ≤ (tfSysIdx inApp frames).length := by omega
    have hhalfpos : 0 < (fa - (tfAppIdx inApp frames).length) / 2 := by omega
    have hms : tfMarkedSys inApp frames fa
        = pySlice (tfSysIdx inApp frames)
            (((fa - (tfAppIdx inApp frames).length) / 2 : Nat) : Int)
            (-(((fa - (tfAppIdx inApp frames).length) / 2 : Nat) : Int)) := by
      unfold tfMarkedSys
      dsimp only
      rw [if_pos (by simpa [hsa] using h0)]
      rw [hsa]
    have hmsl : (tfMarkedSys inApp frames fa).length
        = (tfSysIdx inApp frames).length
          - 2 * ((fa - (tfAppIdx inApp frames).length) / 2) := by
      rw [hms, pySlice_length, pyIdx_natCast,
        pyIdx_neg_natCast _ _ hhalfpos]
      omega
    have hrem : tfRemaining inApp frames fa
        = (frames.length : Int) - fa
          - ((tfSysIdx inApp frames).length
            - 2 * ((fa - (tfAppIdx inApp frames).length) / 2) : Nat) := by
      unfold tfRemaining
      rw [hmsl]
    by_cases heven : fa - (tfAppIdx inApp frames).length
        = 2 * ((fa - (tfAppIdx inApp frames).length) / 2)
    · have hrem0 : tfRemaining inApp frames fa = 0 := by
        rw [hrem]
        omega
      have hma : tfMarkedApp inApp frames fa = [] := by
        unfold tfMarkedApp
        rw [if_neg (by rw [hrem0]; simp)]
      rw [hmsl, hma]
      simp only [List.length_nil]
      omega
    · rw [hmsl]
      omega

/-- C1 counterexample: at the default allowance
`MAX_STACKTRACE_FRAMES = 30` (which is positive), an event with 29 in-app
frames and 30 system frames is returned whole: `system_allowance = 1`, so
`half_max = 0` and the slice `system_frames[0:-0]` is empty, nothing is
marked, and all 59 frames survive. -/
theorem trim_frames_over_allowance :
    0 < MAX_STACKTRACE_FRAMES ∧
      (trim_frames Frame.inAppTruthy Frame.deleteTruthy
          ((List.range 29).map
              (fun i => { in_app := some true, payload := i })
            ++ (List.range 30).map (fun i => { payload := 29 + i }))
          MAX_STACKTRACE_FRAMES).length = 59 := by
  constructor
  · decide
  · rfl

/-- C1 (amended): `trim_frames` returns at most `frame_allowance` frames
whenever `frame_allowance ≥ 2` and `frame_allowance` is not exactly one more
than the number of in-app frames (when `system_allowance` is `0` or `1` the
empty-slice edge cases can leave the list untrimmed). -/
theorem trim_frames_length_le {α : Type} (inApp del : α → Bool)
    (frames : List α) (frame_allowance : Nat) (h2 : 2 ≤ frame_allowance)
    (hne : frame_allowance ≠ frames.countP inApp + 1) :
    (trim_frames inApp del frames frame_allowance).length
      ≤ frame_allowance := by
  by_cases h : frames.length ≤ frame_allowance
  · rw [trim_frames_id_of_length_le inApp del frames frame_allowance h]
    exact h
  · have hk := trim_frames_length_add_marked inApp del frames frame_allowance h
    have hg := tfMarked_length_ge inApp frames frame_allowance
      (by omega) h2 hne
    omega

/-- Witness for C1 (amended) at a concrete five-frame list and allowance 3. -/
theorem trim_frames_length_le_witness :
    (2 ≤ 3 ∧
        3 ≠ ([({payload := 0} : Frame), {payload := 1}, {payload := 2},
          {payload := 3}, {payload := 4}].countP Frame.inAppTruthy) + 1) ∧
      (trim_frames Frame.inAppTruthy Frame.deleteTruthy
          [({payload := 0} : Frame), {payload := 1}, {payload := 2},
            {payload := 3}, {payload := 4}] 3).length ≤ 3 :=
  ⟨⟨by decide, by decide⟩,
    trim_frames_length_le Frame.inAppTruthy Frame.deleteTruthy
      [{payload := 0}, {payload := 1}, {payload := 2}, {payload := 3},
        {payload := 4}] 3 (by decide) (by decide)⟩

end Sentry
